import Mathlib

/-
  Verification development for the UMABot chat-bot game engine (src/app.py).

  The embedding models the per-channel ("scope") slice of the PostgreSQL
  database state and the pure state transitions performed by the command
  handlers: the assassin ring game (start / target / eliminate / end),
  the scoring ledger ("spots"), the daily bonus job and the season clock.
  Player ids, channel ids and message timestamps are opaque strings, as in
  the TEXT columns of the database; timestamps are integer minutes.
-/

namespace UMABot

/-- One row of the `assassin_players` table, restricted to a single channel
(the `channel_id` column is implicit in the per-scope state). -/
structure RingPlayer where
  player_id : String
  target_id : String
  is_active : Bool
  kill_count : Nat
deriving DecidableEq

/-- One row of the `assassin_eliminations` table, restricted to a single
channel. -/
structure ElimEvent where
  killer_id : String
  victim_id : String
deriving DecidableEq

/-- The per-channel slice of the database used by the assassin game:
the `assassin_players` rows and the `assassin_eliminations` rows of one
channel, each in insertion order. -/
structure ScopeState where
  players : List RingPlayer
  elims : List ElimEvent
deriving DecidableEq

/-- `SELECT ... FROM assassin_players WHERE player_id = %s AND channel_id = %s`
followed by `fetchone()`: the first row of the scope with the given player id. -/
def findPlayer : List RingPlayer → String → Option RingPlayer
  | [], _ => none
  | r :: rest, pid => if r.player_id = pid then some r else findPlayer rest pid

/-- The target edge read off the scope state: the `target_id` column of the
player's row, when the row exists. -/
def targetOf (s : List RingPlayer) (p : String) : Option String :=
  (findPlayer s p).map (fun r => r.target_id)

/-- The player has a row in the scope and its `is_active` flag is set. -/
def ActiveIn (s : List RingPlayer) (p : String) : Prop :=
  ∃ r, findPlayer s p = some r ∧ r.is_active = true

/-- A directed target edge between active-game rows: `a`'s row exists and
its target is `b`. -/
def RingLink (s : List RingPlayer) (a b : String) : Prop :=
  targetOf s a = some b

/-- The wrap-around edge of a cycle listing: the last listed player targets
the first listed player. -/
def WrapLink (s : List RingPlayer) (l : List String) : Prop :=
  ∀ a b, l.getLast? = some a → l.head? = some b → RingLink s a b

/-- The ring invariant: `l` lists every active player of the scope exactly
once, and the target edges follow `l` cyclically, so the active players'
target edges form exactly one directed cycle visiting every active player
exactly once. -/
def IsRingCycle (s : List RingPlayer) (l : List String) : Prop :=
  l ≠ [] ∧ l.Nodup ∧ (∀ p, p ∈ l ↔ ActiveIn s p) ∧
    List.Chain' (RingLink s) l ∧ WrapLink s l

/-- The row inserted by `handle_assassin_start_command` for the player at
position `e.1` of the shuffled list: its target is the next player in the
shuffled order, wrapping around (`players[(i + 1) % len(players)]`). -/
def mkRow (players : List String) (e : Nat × String) : RingPlayer :=
  { player_id := e.2
    target_id := players.getD ((e.1 + 1) % players.length) ""
    is_active := true
    kill_count := 0 }

/-- The full set of rows inserted by `handle_assassin_start_command` step 4:
`for i, player_id in enumerate(players): target = players[(i+1) % len(players)]`. -/
def ringOf (players : List String) : List RingPlayer :=
  players.enum.map (mkRow players)

inductive StartError where
  | alreadyActive
  | insufficientPlayers
deriving DecidableEq

/-- `handle_assassin_start_command` (the database part): refuse when the
channel already has active rows, refuse fewer than 3 distinct mentioned
players, otherwise delete all prior rows and the elimination log for the
channel and insert the freshly shuffled ring.  `shuffled` is the already
shuffled distinct player list. -/
def startGame (st : ScopeState) (shuffled : List String) :
    Except StartError ScopeState :=
  if 0 < (st.players.filter (fun r => r.is_active)).length then
    Except.error StartError.alreadyActive
  else if shuffled.length < 3 then
    Except.error StartError.insufficientPlayers
  else
    Except.ok { players := ringOf shuffled, elims := [] }

/-- `UPDATE assassin_players SET is_active = FALSE WHERE player_id = victim`. -/
def deactivateVictim (victim : String) (r : RingPlayer) : RingPlayer :=
  if r.player_id = victim then { r with is_active := false } else r

/-- `UPDATE assassin_players SET target_id = %s, kill_count = kill_count + 1
WHERE player_id = killer`. -/
def retargetKiller (killer newTargetId : String) (r : RingPlayer) : RingPlayer :=
  if r.player_id = killer then
    { r with target_id := newTargetId, kill_count := r.kill_count + 1 }
  else r

/-- Step 6 of the elimination protocol of `handle_eliminated_command`:
first the victim row is deactivated, then the killer row is retargeted to
the victim's former target and its kill count incremented, in the order of
the two UPDATE statements. -/
def applyElimination (s : List RingPlayer) (killer victim newTargetId : String) :
    List RingPlayer :=
  (s.map (deactivateVictim victim)).map (retargetKiller killer newTargetId)

inductive ElimResult where
  | missingEvidence
  | notAPlayer
  | killerEliminated
  | wrongTarget
  | victimAlreadyEliminated
  | winner (playerId : String)
  | newTarget (targetId : String)
deriving DecidableEq

/-- Failure results of `eliminate`: everything except a win report or a
new-target report. -/
def ElimResult.isFailure : ElimResult → Bool
  | ElimResult.winner _ => false
  | ElimResult.newTarget _ => false
  | _ => true

/-- `handle_eliminated_command` (the database part).  Checks run in source
order: evidence, killer row exists, killer active, killer's target equals
the victim, victim row exists and active.  On success the victim is
deactivated, the killer retargeted to the victim's former target, the
elimination logged; then active players are recounted and, when exactly one
remains, all `assassin_players` rows of the channel are deleted and a win is
reported.  Failure paths return before any UPDATE, so the state is
unchanged. -/
def eliminate (st : ScopeState) (killer victim : String) (hasEvidence : Bool) :
    ScopeState × ElimResult :=
  if hasEvidence = false then (st, ElimResult.missingEvidence)
  else
    match findPlayer st.players killer with
    | none => (st, ElimResult.notAPlayer)
    | some killerData =>
      if killerData.is_active = false then (st, ElimResult.killerEliminated)
      else if killerData.target_id ≠ victim then (st, ElimResult.wrongTarget)
      else
        match findPlayer st.players victim with
        | none => (st, ElimResult.victimAlreadyEliminated)
        | some victimData =>
          if victimData.is_active = false then
            (st, ElimResult.victimAlreadyEliminated)
          else
            let newTargetId := victimData.target_id
            let updated := applyElimination st.players killer victim newTargetId
            let log := st.elims ++ [⟨killer, victim⟩]
            match updated.filter (fun r => r.is_active) with
            | [w] => (⟨[], log⟩, ElimResult.winner w.player_id)
            | _ => (⟨updated, log⟩, ElimResult.newTarget newTargetId)

inductive EndRequestResult where
  | noActiveGame
  | confirmPrompt
deriving DecidableEq

/-- `handle_assassin_end_request` (after the admin check): counts the active
rows of the channel, refuses when the count is zero, otherwise posts the
confirmation prompt.  It performs no state mutation. -/
def assassinEndRequest (st : ScopeState) : EndRequestResult :=
  if (st.players.filter (fun r => r.is_active)).length = 0 then
    EndRequestResult.noActiveGame
  else
    EndRequestResult.confirmPrompt

/-- `handle_confirm_end_action` (the database part): unconditionally deletes
all `assassin_players` rows and all `assassin_eliminations` rows of the
channel. -/
def confirmEndAction (st : ScopeState) : ScopeState :=
  { players := [], elims := [] }

/-- One application of the target map: a player's current target, read from
the scope's rows; players without a row are left fixed. -/
def stepTarget (s : List RingPlayer) (p : String) : String :=
  match targetOf s p with
  | some t => t
  | none => p

/-- Iterated target following. -/
def iterTarget (s : List RingPlayer) : Nat → String → String
  | 0, p => p
  | n + 1, p => iterTarget s n (stepTarget s p)

/-- The ring states reachable through the assassin handlers: the empty
scope, successful and failed starts, eliminations and confirmed manual
ends.  The `shuffled` list of a start is distinct because the source builds
it as `list(set(re.findall(...)))` before shuffling. -/
inductive Reach : ScopeState → Prop where
  | init : Reach ⟨[], []⟩
  | start {st st2 : ScopeState} {shuffled : List String} :
      Reach st → shuffled.Nodup → startGame st shuffled = Except.ok st2 → Reach st2
  | elim {st st2 : ScopeState} {k v : String} {e : Bool} {r : ElimResult} :
      Reach st → eliminate st k v e = (st2, r) → Reach st2
  | endGame {st : ScopeState} : Reach st → Reach (confirmEndAction st)

/-- Well-formedness of a reachable scope: player ids are unique, and either
the board is empty or the active players form a single cycle of length at
least 2. -/
def RingWF (st : ScopeState) : Prop :=
  (st.players.map (fun r => r.player_id)).Nodup ∧
    (st.players = [] ∨ ∃ l, 2 ≤ l.length ∧ IsRingCycle st.players l)

/-- One row of the `spots` table. -/
structure Spot where
  spotter_id : String
  spotted_id : String
  channel_id : String
  message_ts : String
  image_url : String
  spotter_points : Nat
  caught_points : Nat
  season_id : String
  is_valid : Bool
  created_at : Int
deriving DecidableEq

/-- `INSERT INTO spots ...` under the `UNIQUE (message_ts, spotted_id)`
constraint of `setup_database`: the insert raises (returns `none`) exactly
when a row with the same key pair already exists. -/
def insertSpot (db : List Spot) (r : Spot) : Option (List Spot) :=
  if db.any (fun q => decide (q.message_ts = r.message_ts ∧ q.spotted_id = r.spotted_id)) then
    none
  else
    some (db ++ [r])

inductive SpotReply where
  | reacted
  | noReaction
  | errorLogged
deriving DecidableEq

/-- The insert loop of `handle_spot_message`: skip self-spots, award 2
points when the spotted user is a bonus target of the channel and 1
otherwise, insert each row; the first constraint violation aborts the
whole run (the surrounding transaction is never committed). -/
def runSpotInserts (spotter chan ts url season : String) (bonusSet : List String)
    (now : Int) : List String → List Spot → Nat → Option (List Spot × Nat)
  | [], db, n => some (db, n)
  | spotted :: rest, db, n =>
    if spotter = spotted then
      runSpotInserts spotter chan ts url season bonusSet now rest db n
    else
      let pts : Nat := if spotted ∈ bonusSet then 2 else 1
      match insertSpot db
          { spotter_id := spotter, spotted_id := spotted, channel_id := chan
            message_ts := ts, image_url := url, spotter_points := pts
            caught_points := 1, season_id := season, is_valid := true
            created_at := now } with
      | none => none
      | some db2 => runSpotInserts spotter chan ts url season bonusSet now rest db2 (n + 1)

/-- `handle_spot_message` (the database part): run the inserts in one
transaction; on any database error the transaction is rolled back, the
error is printed and no reaction is added; otherwise the ✅ reaction is
added exactly when at least one row was inserted. -/
def handleSpotMessage (db : List Spot) (spotter chan ts url season : String)
    (bonusSet : List String) (now : Int) (mentioned : List String) :
    List Spot × SpotReply :=
  match runSpotInserts spotter chan ts url season bonusSet now mentioned db 0 with
  | none => (db, SpotReply.errorLogged)
  | some (db2, n) => (db2, if 0 < n then SpotReply.reacted else SpotReply.noReaction)

/-- Number of rows of the store carrying a given `(message_ts, spotted_id)`
key pair. -/
def countSpotKey (db : List Spot) (ts spotted : String) : Nat :=
  (db.filter (fun r => decide (r.message_ts = ts ∧ r.spotted_id = spotted))).length

/-- The WHERE clause of the seasonal leaderboard query of
`handle_spotboard_command`: `is_valid = TRUE AND season_id = %s AND
channel_id = %s`, plus `created_at >= %s` when the channel has a manual
reset timestamp. -/
def boardFilter (chan season : String) (floorTs : Option Int) (r : Spot) : Bool :=
  r.is_valid && decide (r.season_id = season) && decide (r.channel_id = chan) &&
    (match floorTs with
     | none => true
     | some t => decide (t ≤ r.created_at))

/-- `SUM(spotter_points)` of one `GROUP BY spotter_id` group of the
seasonal leaderboard query. -/
def spotterTotal (db : List Spot) (chan season : String) (floorTs : Option Int)
    (u : String) : Nat :=
  (((db.filter (boardFilter chan season floorTs)).filter
      (fun r => decide (r.spotter_id = u))).map (fun r => r.spotter_points)).sum

/-- The distinct spotter ids produced by `GROUP BY spotter_id` over the
filtered rows. -/
def boardGroups (db : List Spot) (chan season : String) (floorTs : Option Int) :
    List String :=
  ((db.filter (boardFilter chan season floorTs)).map (fun r => r.spotter_id)).dedup

/-- The observable outputs of the spotboard query: SQL guarantees some
ordering of the grouped sums that is descending in the total —  leaving the
relative order of equal totals unspecified — and `LIMIT 5` keeps the first
five rows of that ordering. -/
def SpotboardOutput (db : List Spot) (chan season : String) (floorTs : Option Int)
    (out : List (String × Nat)) : Prop :=
  ∃ full : List (String × Nat),
    full.Perm ((boardGroups db chan season floorTs).map
      (fun u => (u, spotterTotal db chan season floorTs u))) ∧
    full.Sorted (fun a b => b.2 ≤ a.2) ∧
    out = full.take 5

/-- `SELECT DISTINCT user_id FROM (spotter UNION spotted)` of
`daily_bonus_job`: the distinct players that ever appear in the channel as
spotter or as spotted. -/
def participantsOf (db : List Spot) (chan : String) : List String :=
  (((db.filter (fun r => decide (r.channel_id = chan))).map (fun r => r.spotter_id)) ++
    ((db.filter (fun r => decide (r.channel_id = chan))).map (fun r => r.spotted_id))).dedup

/-- `SELECT DISTINCT channel_id FROM spots` of `daily_bonus_job`. -/
def activeChannels (db : List Spot) : List String :=
  (db.map (fun r => r.channel_id)).dedup

/-- The per-channel body of `daily_bonus_job`: channels with at least two
historical participants get `random.sample(participants, 2)` — modelled by
the oracle `pick` — and all other channels get no assignment.  The result
is the freshly built `new_bonus_assignments` dictionary. -/
def dailyBonusJob (db : List Spot) (pick : List String → List String) :
    List (String × List String) :=
  (activeChannels db).filterMap (fun c =>
    let parts := participantsOf db c
    if 2 ≤ parts.length then some (c, pick parts) else none)

/-- The whole job including the global swap: `daily_bonus_users.clear()`
followed by `daily_bonus_users = new_bonus_assignments` discards the
previous day's assignments entirely, whatever they were. -/
def runDailyBonusJob (prev : List (String × List String)) (db : List Spot)
    (pick : List String → List String) : List (String × List String) :=
  dailyBonusJob db pick

/-- Dictionary lookup `daily_bonus_users.get(channel_id)`. -/
def findAssign : List (String × List String) → String → Option (List String)
  | [], _ => none
  | e :: rest, c => if e.1 = c then some e.2 else findAssign rest c

/-- The absolute instant of `SEASON_START_DATE`, in minutes after
2025-10-09T00:00:00 UTC.  The source constructs
`datetime(2025, 10, 9, 0, 0, 0, tzinfo=pytz.timezone('America/Los_Angeles'))`;
passing a pytz zone as `tzinfo=` attaches the zone's first (LMT) offset,
−07:53 for America/Los_Angeles, so the anchor is 2025-10-09T00:00:00−07:53,
i.e. 7 * 60 + 53 minutes after midnight UTC. -/
def seasonAnchorUtcMin : Int := 7 * 60 + 53

/-- `get_current_season_id`, with instants as minutes after
2025-10-09T00:00:00 UTC and the resulting season id as the day offset of
the rendered date from 2025-10-09 (the code renders
`SEASON_START_DATE + timedelta(days = 14 * seasons_passed)` with
`strftime('%Y-%m-%d')`, a pure calendar shift of the anchor's naive date
fields).  `timedelta.days` and Python `//` both floor, hence `Int.fdiv`. -/
def get_current_season_id (nowUtcMin : Int) : Int :=
  let deltaDays : Int := (nowUtcMin - seasonAnchorUtcMin).fdiv 1440
  let seasonsPassed : Int := deltaDays.fdiv 14
  14 * seasonsPassed

/-- The claimed anchor instant: `A = 2025-10-09T00:00 Pacific`.  On
2025-10-09 the Pacific offset is PDT, −07:00, so `A` is 420 minutes after
2025-10-09T00:00:00 UTC. -/
def claimAnchorUtcMin : Int := 7 * 60

/-- Modelled from the claim's words (for comparison with
`get_current_season_id`): the season id is `A + kW` for every instant in
`[A + kW, A + (k+1)W)` with `W = 14` days, i.e. `14 * floor((t - A) / W)`
days after 2025-10-09. -/
def claimSeasonId (nowUtcMin : Int) : Int :=
  14 * ((nowUtcMin - claimAnchorUtcMin).fdiv (14 * 1440))

/-! ### Row-level lemmas about `findPlayer` -/

theorem findPlayer_some {s : List RingPlayer} {p : String} {r : RingPlayer}
    (h : findPlayer s p = some r) : r.player_id = p ∧ r ∈ s := by
  induction s with
  | nil => simp [findPlayer] at h
  | cons a rest ih =>
    by_cases ha : a.player_id = p
    · simp [findPlayer, ha] at h
      subst h
      exact ⟨ha, List.mem_cons_self _ _⟩
    · simp [findPlayer, ha] at h
      rcases ih h with ⟨h1, h2⟩
      exact ⟨h1, List.mem_cons_of_mem _ h2⟩

theorem findPlayer_of_mem {s : List RingPlayer} {r : RingPlayer}
    (hids : (s.map (fun q => q.player_id)).Nodup) (hr : r ∈ s) :
    findPlayer s r.player_id = some r := by
  induction s with
  | nil => simp at hr
  | cons a rest ih =>
    simp only [List.map_cons, List.nodup_cons] at hids
    rcases List.mem_cons.mp hr with h | h
    · subst h
      simp [findPlayer]
    · have hne : a.player_id ≠ r.player_id := by
        intro heq
        exact hids.1 (heq ▸ List.mem_map_of_mem (fun q => q.player_id) h)
      simp [findPlayer, hne]
      exact ih hids.2 h

theorem findPlayer_map {s : List RingPlayer} {f : RingPlayer → RingPlayer}
    (hf : ∀ r, (f r).player_id = r.player_id) (p : String) :
    findPlayer (s.map f) p = (findPlayer s p).map f := by
  induction s with
  | nil => simp [findPlayer]
  | cons a rest ih =>
    by_cases ha : a.player_id = p
    · simp [findPlayer, hf, ha]
    · simp [findPlayer, hf, ha, ih]

theorem deactivateVictim_id (v : String) (r : RingPlayer) :
    (deactivateVictim v r).player_id = r.player_id := by
  unfold deactivateVictim
  split <;> rfl

theorem retargetKiller_id (k nt : String) (r : RingPlayer) :
    (retargetKiller k nt r).player_id = r.player_id := by
  unfold retargetKiller
  split <;> rfl

theorem findPlayer_applyElim (s : List RingPlayer) (k v nt p : String) :
    findPlayer (applyElimination s k v nt) p =
      (findPlayer s p).map (fun r => retargetKiller k nt (deactivateVictim v r)) := by
  unfold applyElimination
  rw [findPlayer_map (retargetKiller_id k nt) p,
    findPlayer_map (deactivateVictim_id v) p, Option.map_map]
  rfl

theorem applyElim_ids (s : List RingPlayer) (k v nt : String) :
    (applyElimination s k v nt).map (fun r => r.player_id) =
      s.map (fun r => r.player_id) := by
  unfold applyElimination
  rw [List.map_map, List.map_map]
  apply List.map_congr_left
  intro r _
  simp [Function.comp, retargetKiller_id, deactivateVictim_id]

theorem targetOf_applyElim_ne {s : List RingPlayer} {k v nt p : String}
    (hpk : p ≠ k) : targetOf (applyElimination s k v nt) p = targetOf s p := by
  unfold targetOf
  rw [findPlayer_applyElim]
  cases hfp : findPlayer s p with
  | none => rfl
  | some r =>
    have hid := (findPlayer_some hfp).1
    have h1 : (deactivateVictim v r).target_id = r.target_id := by
      unfold deactivateVictim
      split <;> rfl
    have h2 : (deactivateVictim v r).player_id ≠ k := by
      rw [deactivateVictim_id, hid]
      exact hpk
    simp [Option.map_map, retargetKiller, h2, h1, Function.comp]

theorem findPlayer_applyElim_killer {s : List RingPlayer} {k v nt : String}
    {kr : RingPlayer} (hk : findPlayer s k = some kr) (hkv : k ≠ v) :
    findPlayer (applyElimination s k v nt) k =
      some { kr with target_id := nt, kill_count := kr.kill_count + 1 } := by
  have hid := (findPlayer_some hk).1
  rw [findPlayer_applyElim, hk]
  have h1 : deactivateVictim v kr = kr := by
    unfold deactivateVictim
    rw [hid, if_neg hkv]
  simp only [Option.map_some']
  rw [h1]
  unfold retargetKiller
  rw [hid, if_pos rfl]

theorem findPlayer_applyElim_victim {s : List RingPlayer} {k v nt : String}
    {vr : RingPlayer} (hv : findPlayer s v = some vr) (hkv : k ≠ v) :
    findPlayer (applyElimination s k v nt) v = some { vr with is_active := false } := by
  have hid := (findPlayer_some hv).1
  rw [findPlayer_applyElim, hv]
  simp only [Option.map_some']
  unfold deactivateVictim retargetKiller
  rw [hid, if_pos rfl]
  simp [hkv.symm]

theorem activeIn_applyElim_ne {s : List RingPlayer} {k v nt p : String}
    (hpv : p ≠ v) : ActiveIn (applyElimination s k v nt) p ↔ ActiveIn s p := by
  unfold ActiveIn
  rw [findPlayer_applyElim]
  cases hfp : findPlayer s p with
  | none => simp
  | some r =>
    have hid := (findPlayer_some hfp).1
    have h1 : deactivateVictim v r = r := by
      unfold deactivateVictim
      rw [hid, if_neg hpv]
    have h2 : (retargetKiller k nt r).is_active = r.is_active := by
      unfold retargetKiller
      split <;> rfl
    simp [h1, h2]

theorem not_activeIn_applyElim_victim {s : List RingPlayer} {k v nt : String}
    {vr : RingPlayer} (hv : findPlayer s v = some vr) :
    ¬ ActiveIn (applyElimination s k v nt) v := by
  have hid := (findPlayer_some hv).1
  unfold ActiveIn
  rw [findPlayer_applyElim, hv]
  rintro ⟨r, hr, hact⟩
  simp only [Option.map_some', Option.some.injEq] at hr
  subst hr
  have h1 : (deactivateVictim v vr).is_active = false := by
    unfold deactivateVictim
    rw [hid, if_pos rfl]
  have h2 : (retargetKiller k nt (deactivateVictim v vr)).is_active =
      (deactivateVictim v vr).is_active := by
    unfold retargetKiller
    split <;> rfl
  rw [h2, h1] at hact
  exact Bool.false_ne_true hact

/-! ### Lemmas about the freshly started ring `ringOf` -/

theorem get_index_congr {α : Type} (l : List α) {i j : Nat} (hi : i < l.length)
    (hj : j < l.length) (hij : i = j) : l.get ⟨i, hi⟩ = l.get ⟨j, hj⟩ := by
  subst hij
  rfl

theorem findPlayer_enumRows (lst : List String) :
    ∀ (t : List String) (k : Nat), t.Nodup → ∀ (i : Nat) (h : i < t.length),
      findPlayer ((t.enumFrom k).map (mkRow lst)) (t.get ⟨i, h⟩) =
        some (mkRow lst (k + i, t.get ⟨i, h⟩)) := by
  intro t
  induction t with
  | nil =>
    intro k _ i h
    simp at h
  | cons a rest ih =>
    intro k hnd i h
    rw [List.enumFrom_cons]
    rcases List.nodup_cons.mp hnd with ⟨hna, hndr⟩
    cases i with
    | zero =>
      simp [findPlayer, mkRow]
    | succ j =>
      have hj : j < rest.length := by
        simpa using h
      have hpj : (a :: rest).get ⟨j + 1, h⟩ = rest.get ⟨j, hj⟩ := rfl
      have hne : a ≠ rest.get ⟨j, hj⟩ := by
        intro heq
        exact hna (heq ▸ rest.get_mem j hj)
      rw [hpj]
      simp only [List.map_cons, findPlayer, mkRow, if_neg hne]
      rw [ih (k + 1) hndr j hj]
      have : k + 1 + j = k + (j + 1) := by omega
      rw [this]
      rfl

theorem findPlayer_ringOf {lst : List String} (hnd : lst.Nodup) (i : Nat)
    (h : i < lst.length) :
    findPlayer (ringOf lst) (lst.get ⟨i, h⟩) =
      some (mkRow lst (i, lst.get ⟨i, h⟩)) := by
  have := findPlayer_enumRows lst lst 0 hnd i h
  simpa [ringOf, List.enum] using this

theorem ringOf_ids (lst : List String) :
    (ringOf lst).map (fun r => r.player_id) = lst := by
  unfold ringOf
  rw [List.map_map]
  have : (fun r : RingPlayer => r.player_id) ∘ mkRow lst = Prod.snd := by
    funext e
    rfl
  rw [this]
  exact List.enum_map_snd lst

theorem targetOf_ringOf {lst : List String} (hnd : lst.Nodup) (i : Nat)
    (h : i < lst.length) :
    targetOf (ringOf lst) (lst.get ⟨i, h⟩) =
      some (lst.getD ((i + 1) % lst.length) "") := by
  unfold targetOf
  rw [findPlayer_ringOf hnd i h]
  rfl

theorem activeIn_ringOf {lst : List String} (hnd : lst.Nodup) (p : String) :
    ActiveIn (ringOf lst) p ↔ p ∈ lst := by
  constructor
  · rintro ⟨r, hr, -⟩
    rcases findPlayer_some hr with ⟨hid, hmem⟩
    have : r.player_id ∈ (ringOf lst).map (fun q => q.player_id) :=
      List.mem_map_of_mem _ hmem
    rw [ringOf_ids] at this
    exact hid ▸ this
  · intro hp
    rcases List.mem_iff_get.mp hp with ⟨⟨i, hi⟩, hget⟩
    refine ⟨mkRow lst (i, lst.get ⟨i, hi⟩), ?_, rfl⟩
    rw [← hget]
    exact findPlayer_ringOf hnd i hi

theorem isRingCycle_ringOf {lst : List String} (hnd : lst.Nodup)
    (hne : lst ≠ []) : IsRingCycle (ringOf lst) lst := by
  have hpos : 0 < lst.length := List.length_pos.mpr hne
  refine ⟨hne, hnd, fun p => (activeIn_ringOf hnd p).symm, ?_, ?_⟩
  · rw [List.chain'_iff_get]
    intro i hi
    have h1 : i < lst.length := by omega
    have h2 : i + 1 < lst.length := by omega
    unfold RingLink
    rw [targetOf_ringOf hnd i h1]
    have hmod : (i + 1) % lst.length = i + 1 := Nat.mod_eq_of_lt h2
    rw [hmod, List.getD_eq_get _ _ h2]
  · intro a b hlast hhead
    have hlg : lst.getLast? = some (lst.getLast hne) :=
      List.getLast?_eq_getLast_of_ne_nil hne
    rw [hlg] at hlast
    have hh : lst.head? = some (lst.head hne) := List.head?_eq_head hne
    rw [hh] at hhead
    have hlt : lst.length - 1 < lst.length := by omega
    have ha : a = lst.get ⟨lst.length - 1, hlt⟩ := by
      rw [← Option.some_inj.mp hlast]
      exact List.getLast_eq_getElem lst hne
    have hb : b = lst.get ⟨0, hpos⟩ := by
      rw [← Option.some_inj.mp hhead]
      exact List.head_eq_getElem lst hne
    unfold RingLink
    rw [ha, targetOf_ringOf hnd _ hlt]
    have hmod : (lst.length - 1 + 1) % lst.length = 0 := by
      have : lst.length - 1 + 1 = lst.length := by omega
      rw [this, Nat.mod_self]
    rw [hmod, List.getD_eq_get _ _ hpos, hb]

theorem stepTarget_ringOf {lst : List String} (hnd : lst.Nodup) (i : Nat)
    (h : i < lst.length) :
    stepTarget (ringOf lst) (lst.get ⟨i, h⟩) =
      lst.get ⟨(i + 1) % lst.length, Nat.mod_lt _ (by omega)⟩ := by
  unfold stepTarget
  rw [targetOf_ringOf hnd i h]
  exact List.getD_eq_get _ _ _

theorem iterTarget_ringOf {lst : List String} (hnd : lst.Nodup) :
    ∀ (m i : Nat) (h : i < lst.length),
      iterTarget (ringOf lst) m (lst.get ⟨i, h⟩) =
        lst.get ⟨(i + m) % lst.length, Nat.mod_lt _ (by omega)⟩ := by
  intro m
  induction m with
  | zero =>
    intro i h
    unfold iterTarget
    exact get_index_congr lst h _ (by simp [Nat.mod_eq_of_lt h])
  | succ m ih =>
    intro i h
    show iterTarget (ringOf lst) m (stepTarget (ringOf lst) (lst.get ⟨i, h⟩)) = _
    rw [stepTarget_ringOf hnd i h, ih ((i + 1) % lst.length) (Nat.mod_lt _ (by omega))]
    refine get_index_congr lst _ _ ?_
    rw [Nat.mod_add_mod, Nat.add_assoc, Nat.add_comm 1 m]

theorem startGame_ok {st st2 : ScopeState} {shuffled : List String}
    (h : startGame st shuffled = Except.ok st2) :
    (st.players.filter (fun r => r.is_active)).length = 0 ∧
      3 ≤ shuffled.length ∧ st2 = ⟨ringOf shuffled, []⟩ := by
  unfold startGame at h
  split at h
  · exact absurd h (by simp)
  · split at h
    · exact absurd h (by simp)
    · refine ⟨by omega, by omega, ?_⟩
      exact (Except.ok.injEq _ _ ▸ h).symm

/-! ### Cycle surgery: removing the victim keeps a single cycle -/

theorem chain'_imp_mem {α : Type} {R S : α → α → Prop} :
    ∀ {l : List α}, (∀ a ∈ l, ∀ b, R a b → S a b) →
      List.Chain' R l → List.Chain' S l := by
  intro l
  induction l with
  | nil =>
    intro _ _
    exact List.chain'_nil
  | cons a t ih =>
    intro h hc
    cases t with
    | nil => exact List.chain'_singleton a
    | cons b t2 =>
      rw [List.chain'_cons] at hc ⊢
      refine ⟨h a (List.mem_cons_self a _) b hc.1, ?_⟩
      exact ih (fun x hx c hrc => h x (List.mem_cons_of_mem a hx) c hrc) hc.2

theorem getLast?_append_right {α : Type} {l1 l2 : List α} (h : l2 ≠ []) :
    (l1 ++ l2).getLast? = l2.getLast? := by
  induction l1 with
  | nil => rfl
  | cons a t ih =>
    have hne : t ++ l2 ≠ [] := by
      intro hemp
      exact h (List.append_eq_nil.mp hemp).2
    cases htl : t ++ l2 with
    | nil => exact absurd htl hne
    | cons x xs =>
      show (a :: (t ++ l2)).getLast? = _
      rw [htl, List.getLast?_cons_cons, ← htl, ih]

theorem isRingCycle_append_comm {s : List RingPlayer} {l1 l2 : List String}
    (h : IsRingCycle s (l1 ++ l2)) : IsRingCycle s (l2 ++ l1) := by
  obtain ⟨hne, hnd, hmem, hchain, hwrap⟩ := h
  have hperm : (l1 ++ l2).Perm (l2 ++ l1) := List.perm_append_comm
  refine ⟨?_, hperm.nodup hnd, ?_, ?_, ?_⟩
  · intro hemp
    rcases List.append_eq_nil.mp hemp with ⟨h2, h1⟩
    exact hne (by rw [h1, h2]; rfl)
  · intro p
    rw [← hperm.mem_iff]
    exact hmem p
  all_goals
    cases l1 with
    | nil =>
      first
      | simpa using hchain
      | intro a b hlast hhead
        exact hwrap a b (by simpa using hlast) (by simpa using hhead)
    | cons x t1 =>
      cases l2 with
      | nil =>
        first
        | simpa using hchain
        | intro a b hlast hhead
          exact hwrap a b (by simpa using hlast) (by simpa using hhead)
      | cons y t2 =>
        rcases List.chain'_append.mp hchain with ⟨hc1, hc2, hmid⟩
        first
        | -- the rotated chain
          refine List.chain'_append.mpr ⟨hc2, hc1, ?_⟩
          intro u hu w hw
          refine hwrap u w ?_ ?_
          · rw [getLast?_append_right (by simp : (y :: t2 : List String) ≠ [])]
            exact Option.mem_def.mp hu
          · simp only [List.cons_append, List.head?_cons]
            simpa using hw
        | -- the rotated wrap edge
          intro a b hlast hhead
          refine hmid a ?_ b ?_
          · rw [getLast?_append_right (by simp : (x :: t1 : List String) ≠ [])] at hlast
            exact Option.mem_def.mpr hlast
          · simp only [List.cons_append, List.head?_cons] at hhead
            simpa using hhead

theorem cycle_elim {s : List RingPlayer} {l : List String} {k v : String}
    {kr vr : RingPlayer}
    (hcyc : IsRingCycle s l) (hlen : 2 ≤ l.length)
    (hk : findPlayer s k = some kr) (hka : kr.is_active = true)
    (ht : kr.target_id = v)
    (hv : findPlayer s v = some vr) (hva : vr.is_active = true) :
    ∃ rest : List String,
      IsRingCycle (applyElimination s k v vr.target_id) (k :: rest) ∧
        l.length = rest.length + 2 ∧ k ≠ v ∧ v ∉ k :: rest := by
  have hkt : targetOf s k = some v := by
    unfold targetOf
    rw [hk]
    simp [ht]
  have hvt : targetOf s v = some vr.target_id := by
    unfold targetOf
    rw [hv]
    simp
  have hkl : k ∈ l := (hcyc.2.2.1 k).mpr ⟨kr, hk, hka⟩
  obtain ⟨l1, l2, rfl⟩ := List.append_of_mem hkl
  have hcyc2 : IsRingCycle s ((k :: l2) ++ l1) := isRingCycle_append_comm hcyc
  rw [List.cons_append] at hcyc2
  have hlen2 : (l2 ++ l1).length + 1 = (l1 ++ k :: l2).length := by
    rw [List.length_append, List.length_append, List.length_cons]
    omega
  cases hrest0 : l2 ++ l1 with
  | nil =>
    have h0 : (l2 ++ l1).length = 0 := by
      rw [hrest0]
      rfl
    rw [List.length_append] at h0
    rw [List.length_append, List.length_cons] at hlen
    omega
  | cons v0 rest =>
    rw [hrest0] at hcyc2 hlen2
    rw [List.length_cons] at hlen2
    have hkv0 : RingLink s k v0 := (List.chain'_cons.mp hcyc2.2.2.2.1).1
    have hv0 : v0 = v := by
      have := hkv0
      unfold RingLink at this
      rw [hkt] at this
      exact (Option.some_inj.mp this).symm
    rw [hv0] at hcyc2
    -- hcyc2 : IsRingCycle s (k :: v :: rest)
    have hnd3 := hcyc2.2.1
    have hknvr : k ∉ v :: rest := (List.nodup_cons.mp hnd3).1
    have hkv : k ≠ v := fun h => hknvr (h ▸ List.mem_cons_self v rest)
    have hknr : k ∉ rest := fun h => hknvr (List.mem_cons_of_mem v h)
    have hvr2 := (List.nodup_cons.mp hnd3).2
    have hvnr : v ∉ rest := (List.nodup_cons.mp hvr2).1
    have hndr : rest.Nodup := (List.nodup_cons.mp hvr2).2
    have hmem3 := hcyc2.2.2.1
    refine ⟨rest, ⟨by simp, ?_, ?_, ?_, ?_⟩, by omega, hkv, ?_⟩
    · exact List.nodup_cons.mpr ⟨hknr, hndr⟩
    · -- membership: k :: rest lists exactly the active players after the update
      intro p
      constructor
      · intro hp
        rcases List.mem_cons.mp hp with hp | hp
        · subst hp
          exact (activeIn_applyElim_ne hkv).mpr ⟨kr, hk, hka⟩
        · have hpv : p ≠ v := fun h => hvnr (h ▸ hp)
          have : ActiveIn s p := (hmem3 p).mp
            (List.mem_cons_of_mem k (List.mem_cons_of_mem v hp))
          exact (activeIn_applyElim_ne hpv).mpr this
      · intro hp
        have hpv : p ≠ v := by
          intro h
          exact not_activeIn_applyElim_victim hv (h ▸ hp)
        have : ActiveIn s p := (activeIn_applyElim_ne hpv).mp hp
        have hpmem := (hmem3 p).mpr this
        rcases List.mem_cons.mp hpmem with h | h
        · exact h ▸ List.mem_cons_self k rest
        · rcases List.mem_cons.mp h with h | h
          · exact absurd h hpv
          · exact List.mem_cons_of_mem k h
    · -- the chain along k :: rest
      cases rest with
      | nil => exact List.chain'_singleton k
      | cons r0 rest2 =>
        have hchain3 := hcyc2.2.2.2.1
        have hlinkv : RingLink s v r0 :=
          (List.chain'_cons.mp (List.chain'_cons.mp hchain3).2).1
        have hr0 : vr.target_id = r0 := by
          have := hlinkv
          unfold RingLink at this
          rw [hvt] at this
          exact Option.some_inj.mp this
        have hchainr : List.Chain' (RingLink s) (r0 :: rest2) :=
          (List.chain'_cons.mp (List.chain'_cons.mp hchain3).2).2
        refine List.chain'_cons.mpr ⟨?_, ?_⟩
        · unfold RingLink targetOf
          rw [findPlayer_applyElim_killer hk hkv]
          simp [hr0]
        · refine chain'_imp_mem ?_ hchainr
          intro a ha b hab
          have hak : a ≠ k := fun h => hknr (h ▸ ha)
          unfold RingLink at hab ⊢
          rw [targetOf_applyElim_ne hak]
          exact hab
    · -- the wrap-around edge
      cases rest with
      | nil =>
        intro a b hlast hhead
        simp only [List.getLast?_singleton, Option.some_inj] at hlast
        simp only [List.head?_cons, Option.some_inj] at hhead
        subst hlast
        subst hhead
        have hwrap3 := hcyc2.2.2.2.2
        have hvk : RingLink s v k := hwrap3 v k (by rfl) (by rfl)
        have hvtk : vr.target_id = k := by
          have := hvk
          unfold RingLink at this
          rw [hvt] at this
          exact Option.some_inj.mp this
        unfold RingLink targetOf
        rw [findPlayer_applyElim_killer hk hkv]
        simp [hvtk]
      | cons r0 rest2 =>
        intro a b hlast hhead
        simp only [List.head?_cons, Option.some_inj] at hhead
        subst hhead
        rw [List.getLast?_cons_cons] at hlast
        have hlast3 : (k :: v :: r0 :: rest2).getLast? = some a := by
          rw [List.getLast?_cons_cons, List.getLast?_cons_cons]
          exact hlast
        have hwrap3 := hcyc2.2.2.2.2
        have hak : RingLink s a k := hwrap3 a k hlast3 rfl
        have hamem : a ∈ r0 :: rest2 :=
          List.mem_of_mem_getLast? (Option.mem_def.mpr hlast)
        have hane : a ≠ k := fun h => hknr (h ▸ hamem)
        unfold RingLink at hak ⊢
        rw [targetOf_applyElim_ne hane]
        exact hak
    · exact fun h => (List.mem_cons.mp h).elim (fun h2 => hkv h2.symm) hvnr

/-! ### Counting active players -/

theorem activeIn_iff_mem_activeIds {s : List RingPlayer}
    (hids : (s.map (fun r => r.player_id)).Nodup) (p : String) :
    ActiveIn s p ↔ p ∈ (s.filter (fun r => r.is_active)).map (fun r => r.player_id) := by
  constructor
  · rintro ⟨r, hr, hact⟩
    rcases findPlayer_some hr with ⟨hid, hmem⟩
    exact hid ▸ List.mem_map_of_mem _ (List.mem_filter.mpr ⟨hmem, hact⟩)
  · intro hp
    rcases List.mem_map.mp hp with ⟨r, hrf, hid⟩
    rcases List.mem_filter.mp hrf with ⟨hmem, hact⟩
    exact ⟨r, hid ▸ findPlayer_of_mem hids hmem, hact⟩

theorem activeIds_nodup {s : List RingPlayer}
    (hids : (s.map (fun r => r.player_id)).Nodup) :
    ((s.filter (fun r => r.is_active)).map (fun r => r.player_id)).Nodup :=
  hids.sublist ((List.filter_sublist s).map (fun r => r.player_id))

theorem cycle_length_eq_active_count {s : List RingPlayer} {l : List String}
    (hids : (s.map (fun r => r.player_id)).Nodup) (hcyc : IsRingCycle s l) :
    l.length = (s.filter (fun r => r.is_active)).length := by
  have hperm : l.Perm ((s.filter (fun r => r.is_active)).map (fun r => r.player_id)) :=
    (List.perm_ext_iff_of_nodup hcyc.2.1 (activeIds_nodup hids)).mpr
      (fun p => (hcyc.2.2.1 p).trans (activeIn_iff_mem_activeIds hids p))
  rw [hperm.length_eq, List.length_map]

/-! ### Case analysis of `eliminate` -/

theorem eliminate_spec (st : ScopeState) (k v : String) (e : Bool) :
    (∃ r, eliminate st k v e = (st, r) ∧ r.isFailure = true) ∨
    (∃ kr vr, e = true ∧ findPlayer st.players k = some kr ∧ kr.is_active = true ∧
      kr.target_id = v ∧ findPlayer st.players v = some vr ∧ vr.is_active = true ∧
      ((∃ w, (applyElimination st.players k v vr.target_id).filter
            (fun r => r.is_active) = [w] ∧
          eliminate st k v e =
            (⟨[], st.elims ++ [⟨k, v⟩]⟩, ElimResult.winner w.player_id)) ∨
       ((∀ w, (applyElimination st.players k v vr.target_id).filter
            (fun r => r.is_active) ≠ [w]) ∧
          eliminate st k v e =
            (⟨applyElimination st.players k v vr.target_id, st.elims ++ [⟨k, v⟩]⟩,
              ElimResult.newTarget vr.target_id)))) := by
  by_cases he : e = false
  · subst he
    exact Or.inl ⟨ElimResult.missingEvidence, rfl, rfl⟩
  · have he2 : e = true := by
      cases e
      · exact absurd rfl he
      · rfl
    subst he2
    cases hfk : findPlayer st.players k with
    | none =>
      exact Or.inl ⟨ElimResult.notAPlayer, by simp [eliminate, hfk], rfl⟩
    | some kr =>
      by_cases hact : kr.is_active = false
      · exact Or.inl ⟨ElimResult.killerEliminated, by simp [eliminate, hfk, hact], rfl⟩
      · have hact2 : kr.is_active = true := by
          cases hb : kr.is_active
          · exact absurd hb hact
          · rfl
        by_cases htg : kr.target_id = v
        · cases hfv : findPlayer st.players v with
          | none =>
            refine Or.inl ⟨ElimResult.victimAlreadyEliminated, ?_, rfl⟩
            simp [eliminate, hfk, hact2, htg, hfv]
          | some vr =>
            by_cases hvact : vr.is_active = false
            · refine Or.inl ⟨ElimResult.victimAlreadyEliminated, ?_, rfl⟩
              simp [eliminate, hfk, hact2, htg, hfv, hvact]
            · have hvact2 : vr.is_active = true := by
                cases hb : vr.is_active
                · exact absurd hb hvact
                · rfl
              refine Or.inr ⟨kr, vr, rfl, rfl, hact2, htg, rfl, hvact2, ?_⟩
              cases hfil : (applyElimination st.players k v vr.target_id).filter
                  (fun r => r.is_active) with
              | nil =>
                refine Or.inr ⟨fun w => by simp [hfil], ?_⟩
                simp [eliminate, hfk, hact2, htg, hfv, hvact2, hfil]
              | cons w tl =>
                cases tl with
                | nil =>
                  refine Or.inl ⟨w, rfl, ?_⟩
                  simp [eliminate, hfk, hact2, htg, hfv, hvact2, hfil]
                | cons w2 tl2 =>
                  refine Or.inr ⟨fun w3 => by simp [hfil], ?_⟩
                  simp [eliminate, hfk, hact2, htg, hfv, hvact2, hfil]
        · refine Or.inl ⟨ElimResult.wrongTarget, ?_, rfl⟩
          simp [eliminate, hfk, hact2, htg]

/-! ### The invariant holds in every reachable state -/

theorem reach_wf {st : ScopeState} (h : Reach st) : RingWF st := by
  induction h with
  | init => exact ⟨List.nodup_nil, Or.inl rfl⟩
  | start hr hnd hok ih =>
    rename_i st0 st2 shuffled
    rcases startGame_ok hok with ⟨-, hlen, rfl⟩
    refine ⟨?_, Or.inr ⟨shuffled, by omega, ?_⟩⟩
    · show ((ringOf shuffled).map (fun r => r.player_id)).Nodup
      rw [ringOf_ids]
      exact hnd
    · refine isRingCycle_ringOf hnd ?_
      intro hemp
      rw [hemp] at hlen
      simp at hlen
  | elim hr heq ih =>
    rename_i st0 st2 k v e r
    rcases eliminate_spec st0 k v e with ⟨r0, heq0, -⟩ |
        ⟨kr, vr, he, hfk, hka, ht, hfv, hva, hcase⟩
    · have hpair : (st0, r0) = (st2, r) := heq0.symm.trans heq
      have hst : st0 = st2 := congrArg Prod.fst hpair
      exact hst ▸ ih
    · have hne : st0.players ≠ [] := by
        intro hemp
        rw [hemp] at hfk
        exact Option.noConfusion hfk
      rcases ih with ⟨hids, hwf⟩
      rcases hwf with hemp | ⟨l, hl2, hcyc⟩
      · exact absurd hemp hne
      rcases cycle_elim hcyc hl2 hfk hka ht hfv hva with ⟨rest, hcyc2, hlen2, hkv, hvn⟩
      rcases hcase with ⟨w, hfil, heqw⟩ | ⟨hfil, heqn⟩
      · have hpq := heqw.symm.trans heq
        injection hpq with h1 h2
        rw [← h1]
        exact ⟨List.nodup_nil, Or.inl rfl⟩
      · have hpq := heqn.symm.trans heq
        injection hpq with h1 h2
        rw [← h1]
        have hids2 : ((applyElimination st0.players k v vr.target_id).map
            (fun q => q.player_id)).Nodup := by
          rw [applyElim_ids]
          exact hids
        have hcount : (k :: rest).length =
            ((applyElimination st0.players k v vr.target_id).filter
              (fun q => q.is_active)).length :=
          cycle_length_eq_active_count hids2 hcyc2
        have hrestne : rest ≠ [] := by
          intro hemp
          subst hemp
          cases hf : (applyElimination st0.players k v vr.target_id).filter
              (fun q => q.is_active) with
          | nil =>
            rw [hf] at hcount
            simp at hcount
          | cons w tl =>
            cases tl with
            | nil => exact hfil w hf
            | cons w2 tl2 =>
              rw [hf] at hcount
              simp at hcount
        refine ⟨hids2, Or.inr ⟨k :: rest, ?_, hcyc2⟩⟩
        cases rest with
        | nil => exact absurd rfl hrestne
        | cons x xs => simp
  | endGame hr ih => exact ⟨List.nodup_nil, Or.inl rfl⟩

/-! ### Claim theorems -/

/-- Claim C1: in every reachable ring state, for every elimination accepted by
the protocol (the evidence check passed so the row checks are reached, the
killer is an active player, the victim is the killer's current target and is
active), the step-6 post-state — victim deactivated, killer retargeted to the
victim's former target — still has the active players' target edges forming
exactly one directed cycle visiting every active player exactly once; the
rows of all players other than the killer and the victim are unchanged, the
victim's row changes only its active flag, and the killer's row changes only
its target and kill count. -/
theorem c1_elimination_preserves_ring (st : ScopeState) (k v : String)
    (kr vr : RingPlayer) (hreach : Reach st)
    (hk : findPlayer st.players k = some kr) (hka : kr.is_active = true)
    (ht : kr.target_id = v)
    (hv : findPlayer st.players v = some vr) (hva : vr.is_active = true) :
    (∃ cyc, IsRingCycle (applyElimination st.players k v vr.target_id) cyc) ∧
    (∀ p, p ≠ k → p ≠ v →
      findPlayer (applyElimination st.players k v vr.target_id) p =
        findPlayer st.players p) ∧
    findPlayer (applyElimination st.players k v vr.target_id) v =
      some { vr with is_active := false } ∧
    findPlayer (applyElimination st.players k v vr.target_id) k =
      some { kr with target_id := vr.target_id, kill_count := kr.kill_count + 1 } := by
  have hwf := reach_wf hreach
  have hne : st.players ≠ [] := by
    intro hemp
    rw [hemp] at hk
    exact Option.noConfusion hk
  rcases hwf with ⟨hids, hor⟩
  rcases hor with hemp | ⟨l, hl2, hcyc⟩
  · exact absurd hemp hne
  rcases cycle_elim hcyc hl2 hk hka ht hv hva with ⟨rest, hcyc2, -, hkv, -⟩
  refine ⟨⟨k :: rest, hcyc2⟩, ?_, findPlayer_applyElim_victim hv hkv,
    findPlayer_applyElim_killer hk hkv⟩
  intro p hpk hpv
  rw [findPlayer_applyElim]
  cases hfp : findPlayer st.players p with
  | none => rfl
  | some r =>
    have hid := (findPlayer_some hfp).1
    have h1 : deactivateVictim v r = r := by
      unfold deactivateVictim
      rw [hid, if_neg hpv]
    have h2 : retargetKiller k vr.target_id r = r := by
      unfold retargetKiller
      rw [hid, if_neg hpk]
    simp only [Option.map_some']
    rw [h1, h2]

/-- Witness for C1: the started ring A → B → C → A with A eliminating B. -/
theorem c1_elimination_preserves_ring_witness :
    Reach (⟨ringOf ["A", "B", "C"], []⟩ : ScopeState) ∧
    findPlayer (ringOf ["A", "B", "C"]) "A" =
      some { player_id := "A", target_id := "B", is_active := true, kill_count := 0 } ∧
    findPlayer (ringOf ["A", "B", "C"]) "B" =
      some { player_id := "B", target_id := "C", is_active := true, kill_count := 0 } ∧
    ((∃ cyc, IsRingCycle (applyElimination (ringOf ["A", "B", "C"]) "A" "B" "C") cyc) ∧
      (∀ p, p ≠ "A" → p ≠ "B" →
        findPlayer (applyElimination (ringOf ["A", "B", "C"]) "A" "B" "C") p =
          findPlayer (ringOf ["A", "B", "C"]) p) ∧
      findPlayer (applyElimination (ringOf ["A", "B", "C"]) "A" "B" "C") "B" =
        some { player_id := "B", target_id := "C", is_active := false, kill_count := 0 } ∧
      findPlayer (applyElimination (ringOf ["A", "B", "C"]) "A" "B" "C") "A" =
        some { player_id := "A", target_id := "C", is_active := true, kill_count := 1 }) :=
  ⟨@Reach.start ⟨[], []⟩ ⟨ringOf ["A", "B", "C"], []⟩ ["A", "B", "C"]
      Reach.init (by decide) rfl, by decide, by decide,
    c1_elimination_preserves_ring ⟨ringOf ["A", "B", "C"], []⟩ "A" "B"
      { player_id := "A", target_id := "B", is_active := true, kill_count := 0 }
      { player_id := "B", target_id := "C", is_active := true, kill_count := 0 }
      (@Reach.start ⟨[], []⟩ ⟨ringOf ["A", "B", "C"], []⟩ ["A", "B", "C"]
        Reach.init (by decide) rfl) (by decide) rfl rfl (by decide) rfl⟩

/-- Claim C2: a successful start on a distinct shuffled player list gives
each player the next player in the shuffled order (with wraparound) as
target; following the target map N times from any player comes back to that
player, and no player is its own target. -/
theorem c2_start_single_cycle (st st2 : ScopeState) (players : List String)
    (hnd : players.Nodup) (hok : startGame st players = Except.ok st2) :
    (∀ (i : Nat) (h : i < players.length),
        targetOf st2.players (players.get ⟨i, h⟩) =
          some (players.getD ((i + 1) % players.length) "")) ∧
    (∀ p ∈ players, iterTarget st2.players players.length p = p ∧
        stepTarget st2.players p ≠ p) := by
  rcases startGame_ok hok with ⟨-, hlen, rfl⟩
  constructor
  · intro i h
    exact targetOf_ringOf hnd i h
  · intro p hp
    rcases List.mem_iff_get.mp hp with ⟨⟨i, hi⟩, rfl⟩
    constructor
    · rw [iterTarget_ringOf hnd players.length i hi]
      exact get_index_congr players _ hi (by rw [Nat.add_mod_right, Nat.mod_eq_of_lt hi])
    · rw [stepTarget_ringOf hnd i hi]
      intro hc
      have hfin := hnd.get_inj_iff.mp hc
      have hval : (i + 1) % players.length = i := congrArg Fin.val hfin
      by_cases hlt : i + 1 < players.length
      · rw [Nat.mod_eq_of_lt hlt] at hval
        omega
      · have hEq : i + 1 = players.length := by omega
        rw [hEq, Nat.mod_self] at hval
        omega

/-- Witness for C2 with players A, B, C. -/
theorem c2_start_single_cycle_witness :
    (["A", "B", "C"] : List String).Nodup ∧
    ((∀ (i : Nat) (h : i < (["A", "B", "C"] : List String).length),
        targetOf (ringOf ["A", "B", "C"]) ((["A", "B", "C"] : List String).get ⟨i, h⟩) =
          some ((["A", "B", "C"] : List String).getD
            ((i + 1) % (["A", "B", "C"] : List String).length) "")) ∧
      (∀ p ∈ (["A", "B", "C"] : List String),
        iterTarget (ringOf ["A", "B", "C"]) (["A", "B", "C"] : List String).length p = p ∧
          stepTarget (ringOf ["A", "B", "C"]) p ≠ p)) :=
  ⟨by decide,
    c2_start_single_cycle ⟨[], []⟩ ⟨ringOf ["A", "B", "C"], []⟩ ["A", "B", "C"]
      (by decide) rfl⟩

/-- Counterexample for C3 as stated: in the started ring A → B → C → A,
after A eliminates B, repeating the very same elimination fails with
`wrongTarget` — the killer has been retargeted to C, and the wrong-target
check runs before the victim check — not with `victimAlreadyEliminated`. -/
theorem c3_counterexample :
    (eliminate (eliminate ⟨ringOf ["A", "B", "C"], []⟩ "A" "B" true).1 "A" "B" true).2 =
      ElimResult.wrongTarget ∧
    ElimResult.wrongTarget ≠ ElimResult.victimAlreadyEliminated := by
  decide

/-- Claim C3 (amended): when the earlier protocol checks pass (killer is an
active player whose current target is the victim), an eliminate call whose
victim has no row or is already inactive fails with
`victimAlreadyEliminated` and leaves the state unchanged; and repeating any
successful elimination deterministically fails and leaves the state
unchanged — so an elimination succeeds exactly once — though the repeat
fails with `wrongTarget` (killer retargeted) or `notAPlayer` (board cleared
by the win), not with `victimAlreadyEliminated`. -/
theorem c3_victim_check_and_single_success :
    (∀ (st : ScopeState) (k v : String) (kr : RingPlayer),
      findPlayer st.players k = some kr → kr.is_active = true → kr.target_id = v →
      (findPlayer st.players v = none ∨
        ∃ vr, findPlayer st.players v = some vr ∧ vr.is_active = false) →
      eliminate st k v true = (st, ElimResult.victimAlreadyEliminated)) ∧
    (∀ (st st2 : ScopeState) (k v : String) (e : Bool) (r : ElimResult),
      eliminate st k v e = (st2, r) → r.isFailure = false →
      (eliminate st2 k v e).1 = st2 ∧ (eliminate st2 k v e).2.isFailure = true) := by
  constructor
  · intro st k v kr hfk hka ht hvic
    rcases hvic with hnone | ⟨vr, hsome, hinact⟩
    · simp [eliminate, hfk, hka, ht, hnone]
    · simp [eliminate, hfk, hka, ht, hsome, hinact]
  · intro st st2 k v e r heq hok
    rcases eliminate_spec st k v e with ⟨r0, heq0, hfail⟩ |
        ⟨kr, vr, he, hfk, hka, ht, hfv, hva, hcase⟩
    · have hpq := heq0.symm.trans heq
      injection hpq with h1 h2
      rw [← h2] at hok
      rw [hfail] at hok
      exact Bool.noConfusion hok
    · subst he
      rcases hcase with ⟨w, hfil, heqw⟩ | ⟨hfil, heqn⟩
      · have hpq := heqw.symm.trans heq
        injection hpq with h1 h2
        rw [← h1]
        exact ⟨by simp [eliminate, findPlayer], by simp [eliminate, findPlayer, ElimResult.isFailure]⟩
      · have hpq := heqn.symm.trans heq
        injection hpq with h1 h2
        rw [← h1]
        by_cases hkv : k = v
        · subst hkv
          have hkid := (findPlayer_some hfk).1
          have hfk2 : findPlayer (applyElimination st.players k k vr.target_id) k =
              some (retargetKiller k vr.target_id (deactivateVictim k kr)) := by
            rw [findPlayer_applyElim, hfk]
            rfl
          have hinact : (retargetKiller k vr.target_id (deactivateVictim k kr)).is_active
              = false := by
            have hd : (deactivateVictim k kr).is_active = false := by
              unfold deactivateVictim
              rw [hkid, if_pos rfl]
            unfold retargetKiller
            split
            · exact hd
            · exact hd
          exact ⟨by simp [eliminate, hfk2, hinact],
            by simp [eliminate, hfk2, hinact, ElimResult.isFailure]⟩
        · have hfk2 := @findPlayer_applyElim_killer st.players k v vr.target_id kr hfk hkv
          by_cases htv : vr.target_id = v
          · have hfv2 := @findPlayer_applyElim_victim st.players k v vr.target_id vr hfv hkv
            rw [htv] at hfk2 hfv2
            exact ⟨by simp [eliminate, hfk2, hka, htv, hfv2],
              by simp [eliminate, hfk2, hka, htv, hfv2, ElimResult.isFailure]⟩
          · exact ⟨by simp [eliminate, hfk2, hka, htv],
              by simp [eliminate, hfk2, hka, htv, ElimResult.isFailure]⟩

/-- Witness for C3 (amended): the victim check at a state where the killer's
target has no row, and the single-success property after A eliminates B in
the started 3-ring. -/
theorem c3_victim_check_and_single_success_witness :
    (findPlayer [⟨"A", "X", true, 0⟩] "A" = some ⟨"A", "X", true, 0⟩ ∧
      findPlayer [⟨"A", "X", true, 0⟩] "X" = none ∧
      eliminate ⟨[⟨"A", "X", true, 0⟩], []⟩ "A" "X" true =
        (⟨[⟨"A", "X", true, 0⟩], []⟩, ElimResult.victimAlreadyEliminated)) ∧
    ((eliminate ⟨ringOf ["A", "B", "C"], []⟩ "A" "B" true).2.isFailure = false ∧
      (eliminate (eliminate ⟨ringOf ["A", "B", "C"], []⟩ "A" "B" true).1 "A" "B" true).1 =
        (eliminate ⟨ringOf ["A", "B", "C"], []⟩ "A" "B" true).1 ∧
      (eliminate (eliminate ⟨ringOf ["A", "B", "C"], []⟩ "A" "B" true).1
        "A" "B" true).2.isFailure = true) :=
  ⟨⟨by decide, by decide,
    c3_victim_check_and_single_success.1 ⟨[⟨"A", "X", true, 0⟩], []⟩ "A" "X"
      ⟨"A", "X", true, 0⟩ (by decide) rfl rfl (Or.inl (by decide))⟩,
   ⟨by decide,
    (c3_victim_check_and_single_success.2 ⟨ringOf ["A", "B", "C"], []⟩ _ "A" "B" true _
      rfl (by decide)).1,
    (c3_victim_check_and_single_success.2 ⟨ringOf ["A", "B", "C"], []⟩ _ "A" "B" true _
      rfl (by decide)).2⟩⟩

/-- Counterexample for C4 as stated: redelivering the same spot message is
not reported as success — the duplicate insert aborts the transaction and
the handler takes the logged-error path (no ✅ reaction), which is not the
success report. -/
theorem c4_counterexample :
    (handleSpotMessage [] "S" "C1" "T1" "u" "sea" [] 0 ["V"]).2 = SpotReply.reacted ∧
    (handleSpotMessage (handleSpotMessage [] "S" "C1" "T1" "u" "sea" [] 0 ["V"]).1
        "S" "C1" "T1" "u" "sea" [] 1 ["V"]).2 = SpotReply.errorLogged ∧
    SpotReply.errorLogged ≠ SpotReply.reacted := by
  decide

/-- Claim C4 (amended): recording the same scoring event (same message
timestamp and same spotted player) twice yields exactly one row in the
store; the second call is a harmless no-op that leaves every previously
inserted record intact, but it is reported through the caught-and-logged
error path (no reaction), not as success. -/
theorem insertSpot_some {db db2 : List Spot} {r : Spot}
    (h : insertSpot db r = some db2) :
    db.any (fun q => decide (q.message_ts = r.message_ts ∧
        q.spotted_id = r.spotted_id)) = false ∧
    db2 = db ++ [r] := by
  unfold insertSpot at h
  by_cases hc : db.any (fun q => decide (q.message_ts = r.message_ts ∧
      q.spotted_id = r.spotted_id)) = true
  · rw [if_pos hc] at h
    exact Option.noConfusion h
  · rw [if_neg hc] at h
    exact ⟨by simpa using hc, (Option.some_inj.mp h).symm⟩

theorem insertSpot_dup {db : List Spot} {r r2 : Spot} (hmem : r ∈ db)
    (hts : r.message_ts = r2.message_ts) (hsp : r.spotted_id = r2.spotted_id) :
    insertSpot db r2 = none := by
  unfold insertSpot
  rw [if_pos (List.any_eq_true.mpr ⟨r, hmem, by rw [hts, hsp]; simp⟩)]

theorem c4_duplicate_insert_noop (db db1 : List Spot)
    (spotter chan ts url season u : String) (bonus : List String) (now : Int)
    (h1 : handleSpotMessage db spotter chan ts url season bonus now [u] =
      (db1, SpotReply.reacted)) :
    countSpotKey db ts u = 0 ∧ countSpotKey db1 ts u = 1 ∧
    (∀ (chan2 url2 season2 : String) (bonus2 : List String) (now2 : Int),
      handleSpotMessage db1 spotter chan2 ts url2 season2 bonus2 now2 [u] =
        (db1, SpotReply.errorLogged)) := by
  by_cases hself : spotter = u
  · exfalso
    rw [handleSpotMessage] at h1
    simp [runSpotInserts, hself] at h1
  · cases hins : insertSpot db
        { spotter_id := spotter, spotted_id := u, channel_id := chan
          message_ts := ts, image_url := url
          spotter_points := if u ∈ bonus then 2 else 1
          caught_points := 1, season_id := season, is_valid := true
          created_at := now } with
    | none =>
      exfalso
      rw [handleSpotMessage] at h1
      simp only [runSpotInserts, if_neg hself, hins] at h1
      exact SpotReply.noConfusion (congrArg Prod.snd h1)
    | some db2 =>
      rw [handleSpotMessage] at h1
      simp only [runSpotInserts, if_neg hself, hins] at h1
      have hd : db2 = db1 := by
        have := congrArg Prod.fst h1
        simpa using this
      rcases insertSpot_some hins with ⟨hany, hdb2eq⟩
      have hany2 : db.any (fun q => decide (q.message_ts = ts ∧ q.spotted_id = u))
          = false := by
        simpa using hany
      have hnil : db.filter (fun q => decide (q.message_ts = ts ∧ q.spotted_id = u))
          = [] := by
        rw [List.filter_eq_nil_iff]
        exact List.any_eq_false.mp hany2
      have hcnt0 : countSpotKey db ts u = 0 := by
        unfold countSpotKey
        rw [hnil]
        rfl
      have hdb1eq : db1 = db ++
          [{ spotter_id := spotter, spotted_id := u, channel_id := chan
             message_ts := ts, image_url := url
             spotter_points := if u ∈ bonus then 2 else 1
             caught_points := 1, season_id := season, is_valid := true
             created_at := now }] := hd ▸ hdb2eq
      refine ⟨hcnt0, ?_, ?_⟩
      · unfold countSpotKey
        rw [hdb1eq, List.filter_append, hnil, List.length_append]
        simp [List.filter]
      · intro chan2 url2 season2 bonus2 now2
        have hmem :
            ({ spotter_id := spotter, spotted_id := u, channel_id := chan
               message_ts := ts, image_url := url
               spotter_points := if u ∈ bonus then 2 else 1
               caught_points := 1, season_id := season, is_valid := true
               created_at := now } : Spot) ∈ db1 := by
          rw [hdb1eq]
          exact List.mem_append_right db (List.mem_cons_self _ _)
        have hins3 : insertSpot db1
            { spotter_id := spotter, spotted_id := u, channel_id := chan2
              message_ts := ts, image_url := url2
              spotter_points := if u ∈ bonus2 then 2 else 1
              caught_points := 1, season_id := season2, is_valid := true
              created_at := now2 } = none := insertSpot_dup hmem rfl rfl
        rw [handleSpotMessage]
        simp only [runSpotInserts, if_neg hself, hins3]

/-- Witness for C4 (amended) at a concrete empty store. -/
theorem c4_duplicate_insert_noop_witness :
    handleSpotMessage [] "S" "C1" "T1" "u" "sea" [] 0 ["V"] =
      ((handleSpotMessage [] "S" "C1" "T1" "u" "sea" [] 0 ["V"]).1, SpotReply.reacted) ∧
    (countSpotKey [] "T1" "V" = 0 ∧
      countSpotKey (handleSpotMessage [] "S" "C1" "T1" "u" "sea" [] 0 ["V"]).1 "T1" "V" = 1 ∧
      (∀ (chan2 url2 season2 : String) (bonus2 : List String) (now2 : Int),
        handleSpotMessage (handleSpotMessage [] "S" "C1" "T1" "u" "sea" [] 0 ["V"]).1
            "S" chan2 "T1" url2 season2 bonus2 now2 ["V"] =
          ((handleSpotMessage [] "S" "C1" "T1" "u" "sea" [] 0 ["V"]).1,
            SpotReply.errorLogged))) :=
  ⟨by decide,
    c4_duplicate_insert_noop [] (handleSpotMessage [] "S" "C1" "T1" "u" "sea" [] 0 ["V"]).1
      "S" "C1" "T1" "u" "sea" "V" [] 0 (by decide)⟩

/-- Claim C5 is refuted by the code: `SEASON_START_DATE` is built with
`tzinfo=pytz.timezone('America/Los_Angeles')`, which attaches the zone's
LMT offset −07:53 instead of the Pacific offset −07:00, so the effective
anchor sits 53 minutes after the claimed `A = 2025-10-09T00:00 PT`.  At
`2025-10-23T00:00:00-07:00` — exactly `A + W`, inside the claim's window
`k = 1` — the code still returns the previous season id (day offset 0,
i.e. '2025-10-09') where the claim requires day offset 14 ('2025-10-23');
at `A` itself (2025-10-09T00:00:00-07:00) the code even returns day offset
−14 ('2025-09-25') instead of 0. -/
theorem c5_code_anchor_shifted :
    get_current_season_id (14 * 1440 + 420) = 0 ∧
    claimSeasonId (14 * 1440 + 420) = 14 ∧
    get_current_season_id 420 = -14 ∧
    claimSeasonId 420 = 0 := by
  decide

/-- Counterexample for C6 as stated: the leaderboard query orders only by
`total_score DESC` with no tie-breaker, so with two spotters tied at one
point each, both orders are valid query outputs — the result is not
deterministic and ties are not broken by player id. -/
theorem c6_counterexample :
    SpotboardOutput
      [⟨"A", "Z", "C1", "T1", "u", 1, 1, "S", true, 100⟩,
       ⟨"B", "Z", "C1", "T2", "u", 1, 1, "S", true, 100⟩] "C1" "S" none
      [("A", 1), ("B", 1)] ∧
    SpotboardOutput
      [⟨"A", "Z", "C1", "T1", "u", 1, 1, "S", true, 100⟩,
       ⟨"B", "Z", "C1", "T2", "u", 1, 1, "S", true, 100⟩] "C1" "S" none
      [("B", 1), ("A", 1)] ∧
    ([("A", 1), ("B", 1)] : List (String × Nat)) ≠ [("B", 1), ("A", 1)] :=
  ⟨⟨[("A", 1), ("B", 1)], by decide, by decide, rfl⟩,
   ⟨[("B", 1), ("A", 1)], by decide, by decide, rfl⟩,
   by decide⟩

/-- Claim C6 (amended): every valid output of the seasonal leaderboard query
sums the spotter points over valid records matching the scope and the
season, excludes every record created before the manual reset floor when
one is set (a pre-floor record changes nothing about the valid outputs,
even when its season id matches), is ordered descending by total — the
relative order of equal totals is unspecified, as the query has no
tie-breaker — and is truncated to the limit of 5 rows. -/
theorem c6_spotboard_floor_and_order (db : List Spot) (chan season : String)
    (t : Int) (out : List (String × Nat)) (r : Spot)
    (hout : SpotboardOutput db chan season (some t) out)
    (hr : r.created_at < t) :
    out.Sorted (fun a b => b.2 ≤ a.2) ∧ out.length ≤ 5 ∧
    (∀ p ∈ out, p.2 = spotterTotal db chan season (some t) p.1 ∧
      p.1 ∈ boardGroups db chan season (some t)) ∧
    SpotboardOutput (db ++ [r]) chan season (some t) out := by
  obtain ⟨full, hperm, hsort, htake⟩ := hout
  have hfilt : boardFilter chan season (some t) r = false := by
    unfold boardFilter
    have hnot : ¬ t ≤ r.created_at := by omega
    simp [hnot]
  have hfilter_eq : (db ++ [r]).filter (boardFilter chan season (some t)) =
      db.filter (boardFilter chan season (some t)) := by
    rw [List.filter_append]
    simp [List.filter, hfilt]
  refine ⟨?_, ?_, ?_, ?_⟩
  · rw [htake]
    exact hsort.sublist (List.take_sublist 5 full)
  · rw [htake]
    exact List.length_take_le 5 full
  · intro p hp
    have hpfull : p ∈ full := by
      rw [htake] at hp
      exact (List.take_sublist 5 full).subset hp
    have hpmem : p ∈ (boardGroups db chan season (some t)).map
        (fun u => (u, spotterTotal db chan season (some t) u)) := hperm.subset hpfull
    rcases List.mem_map.mp hpmem with ⟨u, hu, hup⟩
    rw [← hup]
    exact ⟨rfl, hu⟩
  · refine ⟨full, ?_, hsort, htake⟩
    have hg : boardGroups (db ++ [r]) chan season (some t) =
        boardGroups db chan season (some t) := by
      unfold boardGroups
      rw [hfilter_eq]
    have hfun : (fun u => (u, spotterTotal (db ++ [r]) chan season (some t) u)) =
        (fun u => (u, spotterTotal db chan season (some t) u)) := by
      funext u
      unfold spotterTotal
      rw [hfilter_eq]
    rw [hg, hfun]
    exact hperm

/-- Witness for C6 (amended): one valid record past the floor and one
pre-floor record to discard. -/
theorem c6_spotboard_floor_and_order_witness :
    SpotboardOutput [⟨"A", "Z", "C1", "T1", "u", 1, 1, "S", true, 100⟩] "C1" "S"
      (some 50) [("A", 1)] ∧
    (⟨"B", "Z", "C1", "T9", "u", 1, 1, "S", true, 10⟩ : Spot).created_at < 50 ∧
    (([("A", 1)] : List (String × Nat)).Sorted (fun a b => b.2 ≤ a.2) ∧
      ([("A", 1)] : List (String × Nat)).length ≤ 5 ∧
      (∀ p ∈ ([("A", 1)] : List (String × Nat)),
        p.2 = spotterTotal [⟨"A", "Z", "C1", "T1", "u", 1, 1, "S", true, 100⟩]
            "C1" "S" (some 50) p.1 ∧
        p.1 ∈ boardGroups [⟨"A", "Z", "C1", "T1", "u", 1, 1, "S", true, 100⟩]
            "C1" "S" (some 50)) ∧
      SpotboardOutput ([⟨"A", "Z", "C1", "T1", "u", 1, 1, "S", true, 100⟩] ++
          [⟨"B", "Z", "C1", "T9", "u", 1, 1, "S", true, 10⟩]) "C1" "S" (some 50)
        [("A", 1)]) :=
  ⟨⟨[("A", 1)], by decide, by decide, rfl⟩, by decide,
    c6_spotboard_floor_and_order [⟨"A", "Z", "C1", "T1", "u", 1, 1, "S", true, 100⟩]
      "C1" "S" 50 [("A", 1)] ⟨"B", "Z", "C1", "T9", "u", 1, 1, "S", true, 10⟩
      ⟨[("A", 1)], by decide, by decide, rfl⟩ (by decide)⟩

/-- Counterexample for C7 as stated: with a stale board — rows present, none
active — the end request refuses with the "no active game" report and no
purge happens, contradicting "always succeeds; never refuses to run because
no game is active". -/
theorem c7_counterexample :
    assassinEndRequest ⟨[⟨"A", "B", false, 1⟩], [⟨"A", "B"⟩]⟩ =
      EndRequestResult.noActiveGame ∧
    (⟨[⟨"A", "B", false, 1⟩], [⟨"A", "B"⟩]⟩ : ScopeState).players ≠ [] := by
  decide

/-- Claim C7 (amended): the confirmed end action deletes all RingPlayer rows
and all EliminationEvent rows of the scope unconditionally; the end request
that gates it, however, refuses whenever the scope has no active players,
and only shows the confirmation prompt when at least one player is active —
so with no active game the purge is not reachable through the end command. -/
theorem c7_end_gate_and_purge :
    (∀ st : ScopeState, confirmEndAction st = ⟨[], []⟩) ∧
    (∀ st : ScopeState, (st.players.filter (fun r => r.is_active)).length = 0 →
      assassinEndRequest st = EndRequestResult.noActiveGame) ∧
    (∀ st : ScopeState, 0 < (st.players.filter (fun r => r.is_active)).length →
      assassinEndRequest st = EndRequestResult.confirmPrompt) := by
  refine ⟨fun st => rfl, fun st h => ?_, fun st h => ?_⟩
  · unfold assassinEndRequest
    rw [if_pos h]
  · unfold assassinEndRequest
    rw [if_neg (by omega)]

/-- Witness for C7 (amended): a stale board is refused, an active board gets
the prompt, and the confirmed end purges. -/
theorem c7_end_gate_and_purge_witness :
    confirmEndAction ⟨[⟨"A", "B", false, 1⟩], [⟨"A", "B"⟩]⟩ = ⟨[], []⟩ ∧
    (((⟨[⟨"A", "B", false, 1⟩], [⟨"A", "B"⟩]⟩ : ScopeState).players.filter
        (fun r => r.is_active)).length = 0 ∧
      assassinEndRequest ⟨[⟨"A", "B", false, 1⟩], [⟨"A", "B"⟩]⟩ =
        EndRequestResult.noActiveGame) ∧
    (0 < ((⟨ringOf ["A", "B", "C"], []⟩ : ScopeState).players.filter
        (fun r => r.is_active)).length ∧
      assassinEndRequest ⟨ringOf ["A", "B", "C"], []⟩ =
        EndRequestResult.confirmPrompt) :=
  ⟨c7_end_gate_and_purge.1 _,
   ⟨by decide, c7_end_gate_and_purge.2.1 _ (by decide)⟩,
   ⟨by decide, c7_end_gate_and_purge.2.2 _ (by decide)⟩⟩

/-- Claim C8: a game started with exactly the three distinct players a, b, c
(in that shuffled order, so that both eliminations are legal) in which a
eliminates b and then a eliminates c ends with a as the winner and no
RingPlayer rows for the scope left; the two elimination events remain
logged. -/
theorem c8_three_player_game (a b c : String) (hab : a ≠ b) (hac : a ≠ c)
    (hbc : b ≠ c) :
    ∃ st1 st2 st3 : ScopeState,
      startGame ⟨[], []⟩ [a, b, c] = Except.ok st1 ∧
      eliminate st1 a b true = (st2, ElimResult.newTarget c) ∧
      eliminate st2 a c true = (st3, ElimResult.winner a) ∧
      st3.players = [] ∧ st3.elims = [⟨a, b⟩, ⟨a, c⟩] := by
  refine ⟨⟨[⟨a, b, true, 0⟩, ⟨b, c, true, 0⟩, ⟨c, a, true, 0⟩], []⟩,
    ⟨[⟨a, c, true, 1⟩, ⟨b, c, false, 0⟩, ⟨c, a, true, 0⟩], [⟨a, b⟩]⟩,
    ⟨[], [⟨a, b⟩, ⟨a, c⟩]⟩, ?_, ?_, ?_, rfl, rfl⟩
  · simp [startGame, ringOf, mkRow, List.enum, List.enumFrom, List.getD]
  · simp [eliminate, findPlayer, applyElimination, deactivateVictim, retargetKiller,
      hab, hac, hbc, Ne.symm hab, Ne.symm hac, Ne.symm hbc]
  · simp [eliminate, findPlayer, applyElimination, deactivateVictim, retargetKiller,
      hab, hac, hbc, Ne.symm hab, Ne.symm hac, Ne.symm hbc]

/-- Witness for C8 with the concrete players A, B, C. -/
theorem c8_three_player_game_witness :
    (("A" : String) ≠ "B" ∧ ("A" : String) ≠ "C" ∧ ("B" : String) ≠ "C") ∧
    (∃ st1 st2 st3 : ScopeState,
      startGame ⟨[], []⟩ ["A", "B", "C"] = Except.ok st1 ∧
      eliminate st1 "A" "B" true = (st2, ElimResult.newTarget "C") ∧
      eliminate st2 "A" "C" true = (st3, ElimResult.winner "A") ∧
      st3.players = [] ∧ st3.elims = [⟨"A", "B"⟩, ⟨"A", "C"⟩]) :=
  ⟨⟨by decide, by decide, by decide⟩,
    c8_three_player_game "A" "B" "C" (by decide) (by decide) (by decide)⟩

theorem findAssign_filterMap (g : String → Option (List String)) :
    ∀ (l : List String), l.Nodup → ∀ c : String,
      findAssign (l.filterMap (fun x => (g x).map (fun y => (x, y)))) c =
        if c ∈ l then g c else none := by
  intro l
  induction l with
  | nil =>
    intro _ c
    simp [findAssign]
  | cons a t ih =>
    intro hnd c
    rcases List.nodup_cons.mp hnd with ⟨hna, hndt⟩
    rw [List.filterMap_cons]
    cases hga : g a with
    | none =>
      simp only [Option.map_none']
      rw [ih hndt c]
      by_cases hca : a = c
      · subst hca
        rw [if_neg hna, if_pos (List.mem_cons_self a t), hga]
      · by_cases hct : c ∈ t
        · rw [if_pos hct, if_pos (List.mem_cons_of_mem a hct)]
        · rw [if_neg hct, if_neg ?_]
          intro hmem
          rcases List.mem_cons.mp hmem with h | h
          · exact hca h.symm
          · exact hct h
    | some y =>
      simp only [Option.map_some']
      show (if a = c then some y else
        findAssign (t.filterMap (fun x => (g x).map (fun y2 => (x, y2)))) c) =
        if c ∈ a :: t then g c else none
      by_cases hca : a = c
      · subst hca
        rw [if_pos rfl, if_pos (List.mem_cons_self a t), hga]
      · rw [if_neg hca, ih hndt c]
        by_cases hct : c ∈ t
        · rw [if_pos hct, if_pos (List.mem_cons_of_mem a hct)]
        · rw [if_neg hct, if_neg ?_]
          intro hmem
          rcases List.mem_cons.mp hmem with h | h
          · exact hca h.symm
          · exact hct h

theorem findAssign_dailyBonus (db : List Spot) (pick : List String → List String)
    (c : String) :
    findAssign (dailyBonusJob db pick) c =
      if c ∈ activeChannels db ∧ 2 ≤ (participantsOf db c).length then
        some (pick (participantsOf db c))
      else none := by
  have hnd : (activeChannels db).Nodup := List.nodup_dedup _
  have hbody : (fun x => (participantsOf db x).length) = (fun x => (participantsOf db x).length) := rfl
  have hjob : dailyBonusJob db pick =
      (activeChannels db).filterMap (fun x =>
        ((fun x2 => if 2 ≤ (participantsOf db x2).length then
            some (pick (participantsOf db x2)) else none) x).map (fun y => (x, y))) := by
    unfold dailyBonusJob
    congr 1
    funext x
    by_cases h : 2 ≤ (participantsOf db x).length
    · simp [h]
    · simp [h]
  rw [hjob, findAssign_filterMap _ _ hnd c]
  by_cases hc : c ∈ activeChannels db
  · by_cases h2 : 2 ≤ (participantsOf db c).length
    · rw [if_pos hc, if_pos h2, if_pos ⟨hc, h2⟩]
    · rw [if_pos hc, if_neg h2, if_neg (fun h => h2 h.2)]
  · rw [if_neg hc, if_neg (fun h => hc h.1)]

theorem mem_activeChannels_of_participants {db : List Spot} {c : String}
    (h : participantsOf db c ≠ []) : c ∈ activeChannels db := by
  have hex : ∃ x, x ∈ participantsOf db c := by
    cases hp : participantsOf db c with
    | nil => exact absurd hp h
    | cons y ys => exact ⟨y, hp ▸ List.mem_cons_self y ys⟩
  rcases hex with ⟨x, hx⟩
  unfold participantsOf at hx
  rw [List.mem_dedup] at hx
  rcases List.mem_append.mp hx with hx2 | hx2 <;>
  · rcases List.mem_map.mp hx2 with ⟨r, hr, -⟩
    rcases List.mem_filter.mp hr with ⟨hrdb, hrc⟩
    unfold activeChannels
    rw [List.mem_dedup]
    have hcc : r.channel_id = c := of_decide_eq_true hrc
    exact hcc ▸ List.mem_map_of_mem _ hrdb

/-- Claim C9: the daily bonus job rebuilds the whole assignment map from
scratch (the previous day's assignments are discarded entirely, never
merged); a scope whose distinct historical participant set has fewer than
2 members gets no assignment, and a scope with exactly 2 participants
always gets exactly those two players as the bonus pair, whatever the
random draw does — `pick` stands for `random.sample(participants, 2)`,
which returns 2 distinct members of its distinct population. -/
theorem c9_bonus_regeneration (db : List Spot)
    (prev prev2 : List (String × List String)) (c : String)
    (pick : List String → List String)
    (hpick : ∀ l : List String, l.Nodup → 2 ≤ l.length →
      (pick l).length = 2 ∧ (pick l).Nodup ∧ ∀ x ∈ pick l, x ∈ l) :
    runDailyBonusJob prev db pick = runDailyBonusJob prev2 db pick ∧
    ((participantsOf db c).length < 2 →
      findAssign (runDailyBonusJob prev db pick) c = none) ∧
    ((participantsOf db c).length = 2 →
      ∃ pr, findAssign (runDailyBonusJob prev db pick) c = some pr ∧
        pr.Perm (participantsOf db c)) := by
  refine ⟨rfl, ?_, ?_⟩
  · intro hlt
    show findAssign (dailyBonusJob db pick) c = none
    rw [findAssign_dailyBonus]
    exact if_neg (fun h => absurd h.2 (by omega))
  · intro h2
    show ∃ pr, findAssign (dailyBonusJob db pick) c = some pr ∧ _
    have hne : participantsOf db c ≠ [] := by
      intro hemp
      rw [hemp] at h2
      simp at h2
    have hc : c ∈ activeChannels db := mem_activeChannels_of_participants hne
    rw [findAssign_dailyBonus, if_pos ⟨hc, by omega⟩]
    refine ⟨pick (participantsOf db c), rfl, ?_⟩
    have hndp : (participantsOf db c).Nodup := List.nodup_dedup _
    rcases hpick (participantsOf db c) hndp (by omega) with ⟨hl, hnd2, hsub⟩
    have hsp : (pick (participantsOf db c)).Subperm (participantsOf db c) :=
      List.subperm_of_subset hnd2 hsub
    exact hsp.perm_of_length_le (by omega)

theorem take2_pick_spec : ∀ l : List String, l.Nodup → 2 ≤ l.length →
    ((l.take 2).length = 2 ∧ (l.take 2).Nodup ∧ ∀ x ∈ l.take 2, x ∈ l) := by
  intro l hnd hlen
  refine ⟨?_, hnd.sublist (List.take_sublist 2 l),
    fun x hx => (List.take_sublist 2 l).subset hx⟩
  rw [List.length_take]
  omega

/-- Witness for C9: a store with one record gives channel C1 exactly the two
participants A and B; the previous assignment map is irrelevant. -/
theorem c9_bonus_regeneration_witness :
    (∀ l : List String, l.Nodup → 2 ≤ l.length →
      ((l.take 2).length = 2 ∧ (l.take 2).Nodup ∧ ∀ x ∈ l.take 2, x ∈ l)) ∧
    (runDailyBonusJob [] [⟨"A", "B", "C1", "T1", "u", 1, 1, "S", true, 0⟩]
        (fun l => l.take 2) =
      runDailyBonusJob [("C1", ["X", "Y"])]
        [⟨"A", "B", "C1", "T1", "u", 1, 1, "S", true, 0⟩] (fun l => l.take 2) ∧
      ((participantsOf [⟨"A", "B", "C1", "T1", "u", 1, 1, "S", true, 0⟩] "C1").length < 2 →
        findAssign (runDailyBonusJob [] [⟨"A", "B", "C1", "T1", "u", 1, 1, "S", true, 0⟩]
          (fun l => l.take 2)) "C1" = none) ∧
      ((participantsOf [⟨"A", "B", "C1", "T1", "u", 1, 1, "S", true, 0⟩] "C1").length = 2 →
        ∃ pr, findAssign (runDailyBonusJob []
            [⟨"A", "B", "C1", "T1", "u", 1, 1, "S", true, 0⟩] (fun l => l.take 2)) "C1" =
              some pr ∧
          pr.Perm (participantsOf [⟨"A", "B", "C1", "T1", "u", 1, 1, "S", true, 0⟩] "C1"))) :=
  ⟨take2_pick_spec,
    c9_bonus_regeneration [⟨"A", "B", "C1", "T1", "u", 1, 1, "S", true, 0⟩]
      [] [("C1", ["X", "Y"])] "C1" (fun l => l.take 2) take2_pick_spec⟩

/-- Claim C10: a win deletes only the RingPlayer rows — the elimination log
survives the win (extended by the winning kill); `eliminate` never removes
log entries in any case; the log is emptied exactly by the confirmed manual
end and by the cleanup of a successful new start. -/
theorem c10_win_keeps_elim_log :
    (∀ (st st2 : ScopeState) (k v : String) (e : Bool) (w : String),
      eliminate st k v e = (st2, ElimResult.winner w) →
      st2.players = [] ∧ st2.elims = st.elims ++ [⟨k, v⟩]) ∧
    (∀ (st : ScopeState) (k v : String) (e : Bool),
      ∃ tail, (eliminate st k v e).1.elims = st.elims ++ tail) ∧
    (∀ st : ScopeState, (confirmEndAction st).elims = []) ∧
    (∀ (st st2 : ScopeState) (shuffled : List String),
      startGame st shuffled = Except.ok st2 → st2.elims = []) := by
  refine ⟨?_, ?_, fun st => rfl, ?_⟩
  · intro st st2 k v e w heq
    rcases eliminate_spec st k v e with ⟨r0, heq0, hfail⟩ |
        ⟨kr, vr, he, hfk, hka, ht, hfv, hva, hcase⟩
    · have hpq := heq0.symm.trans heq
      injection hpq with h1 h2
      rw [h2] at hfail
      simp [ElimResult.isFailure] at hfail
    · rcases hcase with ⟨w0, hfil, heqw⟩ | ⟨hfil, heqn⟩
      · have hpq := heqw.symm.trans heq
        injection hpq with h1 h2
        rw [← h1]
        exact ⟨rfl, rfl⟩
      · have hpq := heqn.symm.trans heq
        injection hpq with h1 h2
        exact ElimResult.noConfusion h2
  · intro st k v e
    rcases eliminate_spec st k v e with ⟨r0, heq0, -⟩ |
        ⟨kr, vr, he, hfk, hka, ht, hfv, hva, hcase⟩
    · rw [heq0]
      exact ⟨[], (List.append_nil _).symm⟩
    · rcases hcase with ⟨w0, hfil, heqw⟩ | ⟨hfil, heqn⟩
      · rw [heqw]
        exact ⟨[⟨k, v⟩], rfl⟩
      · rw [heqn]
        exact ⟨[⟨k, v⟩], rfl⟩
  · intro st st2 shuffled hok
    rw [(startGame_ok hok).2.2]

/-- Witness for C10: a two-player board where the elimination wins, plus a
fresh start. -/
theorem c10_win_keeps_elim_log_witness :
    eliminate ⟨[⟨"A", "B", true, 0⟩, ⟨"B", "A", true, 0⟩], [⟨"Z", "W"⟩]⟩ "A" "B" true =
      (⟨[], [⟨"Z", "W"⟩, ⟨"A", "B"⟩]⟩, ElimResult.winner "A") ∧
    ((⟨[], [⟨"Z", "W"⟩, ⟨"A", "B"⟩]⟩ : ScopeState).players = [] ∧
      (⟨[], [⟨"Z", "W"⟩, ⟨"A", "B"⟩]⟩ : ScopeState).elims =
        [⟨"Z", "W"⟩] ++ [⟨"A", "B"⟩]) ∧
    (startGame ⟨[], []⟩ ["A", "B", "C"] =
        Except.ok ⟨ringOf ["A", "B", "C"], []⟩ ∧
      (⟨ringOf ["A", "B", "C"], []⟩ : ScopeState).elims = []) :=
  ⟨by decide,
    c10_win_keeps_elim_log.1 ⟨[⟨"A", "B", true, 0⟩, ⟨"B", "A", true, 0⟩], [⟨"Z", "W"⟩]⟩
      ⟨[], [⟨"Z", "W"⟩, ⟨"A", "B"⟩]⟩ "A" "B" true "A" (by decide),
    ⟨rfl, c10_win_keeps_elim_log.2.2.2 ⟨[], []⟩ ⟨ringOf ["A", "B", "C"], []⟩
      ["A", "B", "C"] rfl⟩⟩

end UMABot
